import Mathlib

/-!
Shallow embedding of the note-taking core of `ants.py` (class `SearchIndex`
and the store/query methods of class `NotesApp`).

Modelling conventions:
* A stored comment line `"<timestamp>: <text>"` is modelled as the pair
  `(timestamp, text)`.  The fixed timestamp format `MM-DD-YYYY HH:MM:SS`
  never contains the substring `": "`, so Python's `split(": ", 1)` recovers
  exactly this pair; the pair model is therefore faithful even when the text
  itself contains `": "`.
* `datetime` values are modelled as integers (seconds); `datetime` subtraction
  becomes integer subtraction and a `timedelta` becomes a count of seconds
  (`timedelta(days = 1)` is `86400`, etc.).
* Python `set` objects are modelled as duplicate-free lists: `add` appends an
  element when absent, `&` keeps the elements of the left list that occur in
  the right one.  Iteration order of a Python set is arbitrary; the list order
  is one such order, and every set-level statement below is phrased through
  membership.
* Python `dict` objects (which preserve insertion order and have unique keys)
  are modelled as association lists; mutation touches the first occurrence of
  a key, which is the only one on every state the program builds.
-/

namespace Ants

/-- A comment entry of the store: `(timestamp, text)`. -/
abbrev Entry := Int × String

/-- An index posting: `(identifier, timestamp, comment text)`. -/
abbrev Triple := String × Int × String

/-- A character matched by the regex class `\w` (ASCII range). -/
def isWordChar (c : Char) : Bool := c.isAlphanum || c == '_'

/-- Maximal runs of characters satisfying `p` (the second argument accumulates
the current run in reverse).  `wordRuns isWordChar` is `re.findall(r'\w+', s)`
and `wordRuns (fun c => !c.isWhitespace)` is `str.split()`. -/
def wordRuns (p : Char → Bool) : List Char → List Char → List String
  | [], cur => if cur = [] then [] else [String.mk cur.reverse]
  | c :: cs, cur =>
    if p c then wordRuns p cs (c :: cur)
    else if cur = [] then wordRuns p cs []
    else String.mk cur.reverse :: wordRuns p cs []

/-- `str.lower()` (character-wise). -/
def lowerStr (s : String) : String := String.mk (s.data.map Char.toLower)

/-- `set(re.findall(r'\w+', s.lower()))`: the distinct lowercase word tokens
of `s`, as a duplicate-free list. -/
def tokenizeList (s : String) : List String :=
  (wordRuns isWordChar (lowerStr s).data []).dedup

/-- `set(identifier.lower().split())`: the distinct lowercase
whitespace-separated words of an identifier. -/
def splitWsLower (s : String) : List String :=
  (wordRuns (fun c => !c.isWhitespace) (lowerStr s).data []).dedup

/-- `set.add`: append when absent (lists model Python sets). -/
def insertS {α : Type _} [DecidableEq α] (x : α) (s : List α) : List α :=
  if x ∈ s then s else s ++ [x]

/-- Set intersection `s & t` on the list model of sets. -/
def interS {α : Type _} [DecidableEq α] (s t : List α) : List α :=
  s.filter (fun a => a ∈ t)

/-- The two dictionaries of class `SearchIndex`; a token absent from a
dictionary is mapped to the empty posting set, exactly what
`dict.get(w, set())` yields. -/
structure SearchIndex where
  index : String → List Triple
  idIndex : String → List String

/-- `SearchIndex.__init__`: both dictionaries empty. -/
def SearchIndex.empty : SearchIndex := ⟨fun _ => [], fun _ => []⟩

/-- `SearchIndex.add_entry`: insert the triple under every word token of the
comment, and the identifier under every whitespace-word of the identifier. -/
def SearchIndex.addEntry (si : SearchIndex) (identifier : String) (ts : Int)
    (comment : String) : SearchIndex :=
  ⟨fun w => if w ∈ tokenizeList comment
      then insertS (identifier, ts, comment) (si.index w) else si.index w,
   fun w => if w ∈ splitWsLower identifier
      then insertS identifier (si.idIndex w) else si.idIndex w⟩

/-- Insertion step of `sorted(words, key = posting-set size)`. -/
def insertLe {α : Type _} (le : α → α → Bool) (x : α) : List α → List α
  | [] => [x]
  | y :: ys => if le x y then x :: y :: ys else y :: insertLe le x ys

/-- Insertion sort by a boolean comparison; a permutation of its input, which
is all the search result depends on (a Python set has no iteration order). -/
def sortLe {α : Type _} (le : α → α → Bool) : List α → List α
  | [] => []
  | x :: xs => insertLe le x (sortLe le xs)

/-- `sorted(words, key = lambda w: len(self.index.get(w, set())))`. -/
def sortByCard (si : SearchIndex) (ws : List String) : List String :=
  sortLe (fun w v => decide ((si.index w).length ≤ (si.index v).length)) ws

/-- The `for word in sorted_words[1:]` loop of `SearchIndex.search`, with its
early exit on an empty intersection. -/
def intersectLoop (si : SearchIndex) (acc : List Triple) : List String → List Triple
  | [] => acc
  | w :: ws =>
    let acc2 := interS acc (si.index w)
    if acc2 = [] then acc2 else intersectLoop si acc2 ws

/-- The trailing `if id_filter: results = {r for r in results if r[0] == id_filter}`
of `SearchIndex.search` (the filter argument is `None` or non-empty). -/
def applyIdFilter : Option String → List Triple → List Triple
  | none, r => r
  | some idf, r => r.filter (fun t => t.1 = idf)

/-- `SearchIndex.search(query, id_filter)`: sort the query tokens by posting
size, start from the smallest posting set, intersect with the rest, with an
early empty exit; an empty query or token set yields the empty set. -/
def SearchIndex.search (si : SearchIndex) (query : String)
    (idFilter : Option String) : List Triple :=
  match sortByCard si (tokenizeList query) with
  | [] => []
  | w :: ws =>
    let results := si.index w
    if results = [] then []
    else applyIdFilter idFilter (intersectLoop si results ws)

/-- `SearchIndex.search_ids(query)`: start from the posting set of one token
and intersect with the posting sets of all tokens (the Python loop runs over
the whole set `words`, its first element included). -/
def SearchIndex.searchIds (si : SearchIndex) (query : String) : List String :=
  match tokenizeList query with
  | [] => []
  | w :: ws => (w :: ws).foldl (fun acc v => interS acc (si.idIndex v)) (si.idIndex w)

/-- Lookup in the association-list model of the `self.notes` dict. -/
def lookupNotes : List (String × List Entry) → String → Option (List Entry)
  | [], _ => none
  | (k, l) :: rest, id => if k = id then some l else lookupNotes rest id

/-- `self.notes.get(id, [])`. -/
def lookupD (notes : List (String × List Entry)) (id : String) : List Entry :=
  (lookupNotes notes id).getD []

/-- `id in self.notes`. -/
def containsKey (notes : List (String × List Entry)) (id : String) : Bool :=
  (lookupNotes notes id).isSome

/-- In-place update of the (unique) entry of a key. -/
def updateKey : List (String × List Entry) → String → (List Entry → List Entry) →
    List (String × List Entry)
  | [], _, _ => []
  | (k, l) :: rest, id, f =>
    if k = id then (k, f l) :: rest else (k, l) :: updateKey rest id f

/-- `del self.notes[id]`. -/
def removeKey : List (String × List Entry) → String → List (String × List Entry)
  | [], _ => []
  | (k, l) :: rest, id => if k = id then rest else (k, l) :: removeKey rest id

/-- `self.notes.setdefault(id, []).append(e)`: append to the key's list, or
append a fresh key at the end (Python dicts keep insertion order). -/
def appendComment (notes : List (String × List Entry)) (id : String) (e : Entry) :
    List (String × List Entry) :=
  if containsKey notes id then updateKey notes id (fun l => l ++ [e])
  else notes ++ [(id, [e])]

/-- The row-grouping loop of `load_notes`:
`self.notes.setdefault(id, []).append(...)` over the db rows in order. -/
def groupRows (rows : List Triple) : List (String × List Entry) :=
  rows.foldl (fun acc r => appendComment acc r.1 (r.2.1, r.2.2)) []

/-- The state the claims range over: the `self.notes` dict, the `notes` table
of the sqlite database (kept in row order), and the `self.search_index`
object, which `__init__` creates once and `load_notes` only ever adds to. -/
structure AppState where
  notes : List (String × List Entry)
  db : List Triple
  si : SearchIndex

/-- `load_notes`: rebuild `self.notes` from the db rows and add every row to
the existing search index — the index is never cleared, which is the root of
the stale-posting behaviour examined below. -/
def loadNotes (db : List Triple) (si : SearchIndex) : AppState :=
  ⟨groupRows db, db, db.foldl (fun s r => s.addEntry r.1 r.2.1 r.2.2) si⟩

/-- `save_notes_to_db(identifier, comments)`: `DELETE FROM notes WHERE id = ?`,
insert the given comments as rows for `identifier`, then `load_notes()`. -/
def saveNotesToDb (st : AppState) (identifier : String) (comments : List Entry) :
    AppState :=
  loadNotes (st.db.filter (fun r => r.1 ≠ identifier) ++
             comments.map (fun e => (identifier, e.1, e.2))) st.si

/-- The state right after `NotesApp.__init__` on an empty database. -/
def emptyState : AppState := ⟨[], [], SearchIndex.empty⟩

/-- The store mutation of `perform_save` (lines 315-322): with a pending edit
index, replace the comment at that index, keeping its old timestamp unless
`update_timestamp` is set; otherwise append a freshly stamped comment (the
new-comment path of the source always passes `update_timestamp = True`). -/
def performSaveNotes (notes : List (String × List Entry)) (identifier text : String)
    (updateTimestamp : Bool) (now : Int) (editIdx : Option Nat) :
    List (String × List Entry) :=
  match editIdx with
  | some i =>
    let oldTs := ((lookupD notes identifier).getD i (0, "")).1
    let e : Entry := if updateTimestamp then (now, text) else (oldTs, text)
    updateKey notes identifier (fun l => l.set i e)
  | none => appendComment notes identifier (now, text)

/-- The spec's `update_comment(identifier, index, new_text, preserve_timestamp)`:
`preserve_timestamp` answers the source's "Update timestamp?" alert with
"Keep", i.e. `update_timestamp = not preserve_timestamp`. -/
def update_comment (notes : List (String × List Entry)) (identifier : String)
    (i : Nat) (newText : String) (preserveTimestamp : Bool) (now : Int) :
    List (String × List Entry) :=
  performSaveNotes notes identifier newText (!preserveTimestamp) now (some i)

/-- Adding a comment followed by its re-indexing step: the new-comment branch
of `perform_save` and its closing `save_notes_to_db(identifier, notes[identifier])`. -/
def opAddComment (st : AppState) (identifier text : String) (now : Int) : AppState :=
  saveNotesToDb ⟨performSaveNotes st.notes identifier text true now none, st.db, st.si⟩
    identifier (lookupD (performSaveNotes st.notes identifier text true now none) identifier)

/-- Editing a comment followed by its re-indexing step. -/
def opUpdateComment (st : AppState) (identifier : String) (i : Nat) (text : String)
    (preserveTimestamp : Bool) (now : Int) : AppState :=
  saveNotesToDb ⟨update_comment st.notes identifier i text preserveTimestamp now, st.db, st.si⟩
    identifier (lookupD (update_comment st.notes identifier i text preserveTimestamp now) identifier)

/-- `delete_comment` (lines 371-374): drop the comment at the index; when the
list becomes empty, drop the identifier too. -/
def deleteCommentNotes (notes : List (String × List Entry)) (identifier : String)
    (i : Nat) : List (String × List Entry) :=
  let notes2 := updateKey notes identifier (fun l => l.eraseIdx i)
  if lookupD notes2 identifier = [] then removeKey notes2 identifier else notes2

/-- Deleting a comment followed by its re-indexing step, as `tableview_delete`
runs it: `delete_comment` then `save_notes_to_db(id, notes.get(id, []))`. -/
def opDeleteComment (st : AppState) (identifier : String) (i : Nat) : AppState :=
  saveNotesToDb ⟨deleteCommentNotes st.notes identifier i, st.db, st.si⟩
    identifier (lookupD (deleteCommentNotes st.notes identifier i) identifier)

/-- Deleting an identifier followed by its re-indexing step (`delete_identifier`
then `save_notes_to_db(id, notes.get(id, []))`). -/
def opDeleteIdentifier (st : AppState) (identifier : String) : AppState :=
  saveNotesToDb ⟨removeKey st.notes identifier, st.db, st.si⟩
    identifier (lookupD (removeKey st.notes identifier) identifier)

/-- `get_timeframe_delta`: segment 1 is a day, 2 a week, 3 thirty days, and
any other segment (`All`) no bound, in seconds. -/
def getTimeframeDelta (tf : Nat) : Option Int :=
  if tf = 1 then some 86400
  else if tf = 2 then some 604800
  else if tf = 3 then some 2592000
  else none

/-- `_is_within_timeframe`: no delta means no filtering; otherwise the comment
passes when `now - timestamp < delta`. -/
def isWithinTimeframe (now : Int) (delta : Option Int) (ts : Int) : Bool :=
  match delta with
  | none => true
  | some d => decide (now - ts < d)

/-- `_filter_comments_by_timeframe`. -/
def filterCommentsByTimeframe (now : Int) (delta : Option Int)
    (comments : List Entry) : List Entry :=
  match delta with
  | none => comments
  | some _ => comments.filter (fun e => isWithinTimeframe now delta e.1)

/-- The `for id in matching_ids:` loop of `filter_notes`: each matched
identifier is read with `self.notes[id]`, which raises `KeyError` when the
identifier is not stored (reachable, since the identifier-name index is never
cleared and `search_ids` can return stale matches after an identifier
delete); the raise aborts the call and is modelled as `none`. -/
def filterNotesIdLoop (notes : List (String × List Entry)) (now : Int)
    (delta : Option Int) : List String → List (String × List Entry) →
    Option (List (String × List Entry))
  | [], disp => some disp
  | id :: ids, disp =>
    match lookupNotes notes id with
    | none => none
    | some comments =>
      let rel := filterCommentsByTimeframe now delta comments
      if rel ≠ [] then filterNotesIdLoop notes now delta ids (disp ++ [(id, rel)])
      else filterNotesIdLoop notes now delta ids disp

/-- `filter_notes` — the spec's `resolve_view(id_fragment, text_query,
time_window)` — on already-stripped inputs: a non-empty text query groups the
index search results (window-filtered) by identifier; otherwise a non-empty
identifier fragment keeps the `search_ids` matches with non-empty
window-filtered comment lists, raising `KeyError` (modelled as `none`) when a
match is not a stored identifier; otherwise every identifier with a non-empty
window-filtered list is kept. -/
def filterNotes (st : AppState) (idFrag commentQuery : String) (tf : Nat)
    (now : Int) : Option (List (String × List Entry)) :=
  let delta := getTimeframeDelta tf
  if commentQuery ≠ "" then
    some ((st.si.search commentQuery (if idFrag ≠ "" then some idFrag else none)).foldl
      (fun disp r =>
        if isWithinTimeframe now delta r.2.1 then appendComment disp r.1 (r.2.1, r.2.2)
        else disp) [])
  else if idFrag ≠ "" then
    filterNotesIdLoop st.notes now delta (st.si.searchIds idFrag) []
  else
    some (st.notes.foldl
      (fun disp p =>
        let rel := filterCommentsByTimeframe now delta p.2
        if rel ≠ [] then disp ++ [(p.1, rel)] else disp) [])

/-- Modelled from the spec: `list_identifiers()` (the source exposes no such
method; its closest counterpart is `sorted(self.displayed_notes.keys())` in
the table rendering).  Per the spec it returns all identifier keys sorted
lexicographically ascending, case-insensitively; the claims below use only its
membership, which sorting does not change. -/
def list_identifiers (notes : List (String × List Entry)) : List String :=
  sortLe (fun a b => decide (lowerStr a ≤ lowerStr b)) (notes.map Prod.fst)

/-- The Note Store invariant of the spec: no identifier key with an empty
comment list. -/
def noEmptyLists (notes : List (String × List Entry)) : Prop :=
  ∀ p ∈ notes, p.2 ≠ []

/-- One view result refines another: every identifier of the first occurs in
the second, with a comment list containing (as a set) the first one's. -/
def viewLE (A B : List (String × List Entry)) : Prop :=
  ∀ id l, (id, l) ∈ A → ∃ l2, (id, l2) ∈ B ∧ ∀ e ∈ l, e ∈ l2

/-- A comment list is sorted by timestamp descending (adjacent pairs
non-increasing; ties keep their relative order). -/
def tsSortedDesc : List Entry → Bool
  | [] => true
  | [_] => true
  | a :: b :: rest => decide (b.1 ≤ a.1) && tsSortedDesc (b :: rest)

/-- The naive Boolean-AND search the spec's words describe: intersect the
posting sets of all query tokens, in token order, with no sorting and no
short-circuit.  Stated for comparison with `SearchIndex.search`. -/
def naiveIntersection (si : SearchIndex) (query : String) : List Triple :=
  match tokenizeList query with
  | [] => []
  | w :: ws => ws.foldl (fun acc v => interS acc (si.index v)) (si.index w)

/-- Case-insensitive prefix test, the matching rule the spec's words give for
step 2 of `resolve_view` ("identifiers whose lowercase form starts with the
lowercase `id_fragment`"). -/
def lowerStartsWith (frag id : String) : Bool :=
  (lowerStr frag).data.isPrefixOf (lowerStr id).data

/-- Whether a triple passes the optional identifier filter of `search`. -/
def idMatches : Option String → Triple → Bool
  | none, _ => true
  | some v, t => decide (t.1 = v)

/-- The entries a row list holds for one identifier, in row order; this is the
comment list `groupRows` associates to that identifier. -/
def rowsFor (id : String) (rows : List Triple) : List Entry :=
  (rows.filter (fun r => r.1 = id)).map (fun r => (r.2.1, r.2.2))

/-- Order on window deltas: `none` (the `All` window) is the top element. -/
def deltaLE : Option Int → Option Int → Prop
  | _, none => True
  | some a, some b => a ≤ b
  | none, some _ => False

/-- Example state: one identifier `A1` holding the single comment `(0, "x")`. -/
def exStateA : AppState := opAddComment emptyState "A1" "x" 0

/-- Example state: identifier `A1` with the comments `(0, "a")` then
`(100, "b")`, stored oldest first. -/
def exStateAB : AppState :=
  opAddComment (opAddComment emptyState "A1" "a" 0) "A1" "b" 100

/-- Example state: a comment `(0, "pump")` was added under `A1` and then
deleted again, each step followed by its re-indexing. -/
def exStatePump : AppState :=
  opDeleteComment (opAddComment emptyState "A1" "pump" 0) "A1" 0

/-- Example index holding two comments that share the token `pump`. -/
def exIndex2 : SearchIndex :=
  (SearchIndex.empty.addEntry "A1" 0 "fix pump").addEntry "B2" 1 "replace pump"

theorem mem_insertLe {α : Type _} (le : α → α → Bool) (x a : α) (l : List α) :
    a ∈ insertLe le x l ↔ a = x ∨ a ∈ l := by
  induction l with
  | nil => simp [insertLe]
  | cons y ys ih =>
    simp only [insertLe]
    split
    · simp
    · simp [ih]; tauto

theorem mem_sortLe {α : Type _} (le : α → α → Bool) (a : α) (l : List α) :
    a ∈ sortLe le l ↔ a ∈ l := by
  induction l with
  | nil => simp [sortLe]
  | cons x xs ih => simp [sortLe, mem_insertLe, ih]

theorem sortLe_eq_nil_iff {α : Type _} (le : α → α → Bool) (l : List α) :
    sortLe le l = [] ↔ l = [] := by
  cases l with
  | nil => simp [sortLe]
  | cons x xs =>
    simp only [sortLe]
    constructor
    · intro h
      have : x ∈ insertLe le x (sortLe le xs) := (mem_insertLe le x x _).2 (Or.inl rfl)
      rw [h] at this
      exact absurd this (List.not_mem_nil x)
    · intro h; exact absurd h (List.cons_ne_nil x xs)

theorem mem_interS {α : Type _} [DecidableEq α] (a : α) (s t : List α) :
    a ∈ interS s t ↔ a ∈ s ∧ a ∈ t := by
  simp [interS, List.mem_filter]

theorem foldl_interS_mem {α β : Type _} [DecidableEq α] (f : β → List α)
    (ws : List β) (acc : List α) (a : α) :
    a ∈ ws.foldl (fun acc v => interS acc (f v)) acc ↔
      a ∈ acc ∧ ∀ w ∈ ws, a ∈ f w := by
  induction ws generalizing acc with
  | nil => simp
  | cons w ws ih =>
    simp only [List.foldl_cons, ih, mem_interS, List.mem_cons]
    constructor
    · rintro ⟨⟨h1, h2⟩, h3⟩
      exact ⟨h1, fun v hv => hv.elim (fun e => e ▸ h2) (h3 v)⟩
    · rintro ⟨h1, h2⟩
      exact ⟨⟨h1, h2 w (Or.inl rfl)⟩, fun v hv => h2 v (Or.inr hv)⟩

theorem intersectLoop_mem (si : SearchIndex) (acc : List Triple)
    (ws : List String) (t : Triple) :
    t ∈ intersectLoop si acc ws ↔ t ∈ acc ∧ ∀ w ∈ ws, t ∈ si.index w := by
  induction ws generalizing acc with
  | nil => simp [intersectLoop]
  | cons w ws ih =>
    simp only [intersectLoop]
    split
    · rename_i hemp
      rw [hemp]
      simp only [List.not_mem_nil, false_iff]
      rintro ⟨h1, h2⟩
      have : t ∈ interS acc (si.index w) :=
        (mem_interS t acc _).2 ⟨h1, h2 w (List.mem_cons_self w ws)⟩
      rw [hemp] at this
      exact List.not_mem_nil t this
    · rw [ih, mem_interS]
      constructor
      · rintro ⟨⟨h1, h2⟩, h3⟩
        exact ⟨h1, fun v hv => (List.mem_cons.1 hv).elim (fun e => e ▸ h2) (h3 v)⟩
      · rintro ⟨h1, h2⟩
        exact ⟨⟨h1, h2 w (List.mem_cons_self w ws)⟩,
          fun v hv => h2 v (List.mem_cons_of_mem w hv)⟩

theorem mem_applyIdFilter (o : Option String) (r : List Triple) (t : Triple) :
    t ∈ applyIdFilter o r ↔ t ∈ r ∧ idMatches o t = true := by
  cases o with
  | none => simp [applyIdFilter, idMatches]
  | some v => simp [applyIdFilter, idMatches, List.mem_filter]

/-- Membership characterization of `SearchIndex.search`: a triple is returned
exactly when the query has at least one token, the triple is in every token's
posting set, and it passes the identifier filter. -/
theorem search_mem (si : SearchIndex) (query : String) (idFilter : Option String)
    (t : Triple) :
    t ∈ si.search query idFilter ↔
      tokenizeList query ≠ [] ∧ (∀ w ∈ tokenizeList query, t ∈ si.index w) ∧
        idMatches idFilter t = true := by
  unfold SearchIndex.search
  cases hs : sortByCard si (tokenizeList query) with
  | nil =>
    have htok : tokenizeList query = [] := (sortLe_eq_nil_iff _ _).1 hs
    simp [htok]
  | cons w ws =>
    have htok : tokenizeList query ≠ [] := by
      intro h
      rw [h] at hs
      exact absurd hs.symm (List.cons_ne_nil w ws)
    have hmem : ∀ v : String, v ∈ tokenizeList query ↔ v = w ∨ v ∈ ws := by
      intro v
      rw [← mem_sortLe (fun w v => decide ((si.index w).length ≤ (si.index v).length))
        v (tokenizeList query)]
      show v ∈ sortByCard si (tokenizeList query) ↔ _
      rw [hs, List.mem_cons]
    simp only []
    split
    · rename_i hemp
      simp only [List.not_mem_nil, false_iff]
      rintro ⟨-, h2, -⟩
      have : t ∈ si.index w := h2 w ((hmem w).2 (Or.inl rfl))
      rw [hemp] at this
      exact List.not_mem_nil t this
    · rw [mem_applyIdFilter, intersectLoop_mem]
      constructor
      · rintro ⟨⟨h1, h2⟩, h3⟩
        refine ⟨htok, fun v hv => ?_, h3⟩
        rcases (hmem v).1 hv with e | e
        · exact e ▸ h1
        · exact h2 v e
      · rintro ⟨-, h2, h3⟩
        exact ⟨⟨h2 w ((hmem w).2 (Or.inl rfl)),
          fun v hv => h2 v ((hmem v).2 (Or.inr hv))⟩, h3⟩

/-- Membership characterization of `SearchIndex.search_ids`. -/
theorem searchIds_mem (si : SearchIndex) (query : String) (id : String) :
    id ∈ si.searchIds query ↔
      tokenizeList query ≠ [] ∧ ∀ w ∈ tokenizeList query, id ∈ si.idIndex w := by
  unfold SearchIndex.searchIds
  cases htok : tokenizeList query with
  | nil => simp
  | cons w ws =>
    rw [foldl_interS_mem]
    constructor
    · rintro ⟨h1, h2⟩
      exact ⟨List.cons_ne_nil w ws, h2⟩
    · rintro ⟨-, h2⟩
      exact ⟨h2 w (List.mem_cons_self w ws), h2⟩

/-- Membership characterization of the naive intersection. -/
theorem naiveIntersection_mem (si : SearchIndex) (query : String) (t : Triple) :
    t ∈ naiveIntersection si query ↔
      tokenizeList query ≠ [] ∧ ∀ w ∈ tokenizeList query, t ∈ si.index w := by
  unfold naiveIntersection
  cases htok : tokenizeList query with
  | nil => simp
  | cons w ws =>
    rw [foldl_interS_mem]
    constructor
    · rintro ⟨h1, h2⟩
      refine ⟨List.cons_ne_nil w ws, fun v hv => ?_⟩
      rcases List.mem_cons.1 hv with e | e
      · exact e ▸ h1
      · exact h2 v e
    · rintro ⟨-, h2⟩
      exact ⟨h2 w (List.mem_cons_self w ws),
        fun v hv => h2 v (List.mem_cons_of_mem w hv)⟩

theorem lookup_updateKey_self (notes : List (String × List Entry)) (id : String)
    (f : List Entry → List Entry) :
    lookupNotes (updateKey notes id f) id = (lookupNotes notes id).map f := by
  induction notes with
  | nil => simp [updateKey, lookupNotes]
  | cons p rest ih =>
    obtain ⟨k, l⟩ := p
    by_cases hk : k = id
    · simp [updateKey, lookupNotes, hk]
    · simp [updateKey, lookupNotes, hk, ih]

theorem lookup_updateKey_ne (notes : List (String × List Entry)) (id id2 : String)
    (f : List Entry → List Entry) (h : id2 ≠ id) :
    lookupNotes (updateKey notes id f) id2 = lookupNotes notes id2 := by
  induction notes with
  | nil => simp [updateKey]
  | cons p rest ih =>
    obtain ⟨k, l⟩ := p
    by_cases hk : k = id
    · subst hk
      simp [updateKey, lookupNotes, Ne.symm h]
    · simp only [updateKey, if_neg hk, lookupNotes]
      by_cases hk2 : k = id2
      · simp [hk2]
      · simp [hk2, ih]

theorem keys_updateKey (notes : List (String × List Entry)) (id : String)
    (f : List Entry → List Entry) :
    (updateKey notes id f).map Prod.fst = notes.map Prod.fst := by
  induction notes with
  | nil => simp [updateKey]
  | cons p rest ih =>
    obtain ⟨k, l⟩ := p
    by_cases hk : k = id
    · simp [updateKey, hk]
    · simp [updateKey, hk, ih]

theorem lookup_eq_none_iff (notes : List (String × List Entry)) (id : String) :
    lookupNotes notes id = none ↔ id ∉ notes.map Prod.fst := by
  induction notes with
  | nil => simp [lookupNotes]
  | cons p rest ih =>
    obtain ⟨k, l⟩ := p
    by_cases hk : k = id
    · simp [lookupNotes, hk]
    · simp [lookupNotes, hk, ih, Ne.symm hk]

theorem containsKey_iff (notes : List (String × List Entry)) (id : String) :
    containsKey notes id = true ↔ id ∈ notes.map Prod.fst := by
  rw [containsKey, Option.isSome_iff_ne_none, ne_eq, lookup_eq_none_iff, not_not]

theorem lookup_append (a b : List (String × List Entry)) (id : String) :
    lookupNotes (a ++ b) id =
      match lookupNotes a id with
      | some l => some l
      | none => lookupNotes b id := by
  induction a with
  | nil => simp [lookupNotes]
  | cons p rest ih =>
    obtain ⟨k, l⟩ := p
    by_cases hk : k = id
    · simp [lookupNotes, hk]
    · simp [lookupNotes, hk, ih]

theorem lookup_appendComment_self (notes : List (String × List Entry))
    (id : String) (e : Entry) :
    lookupNotes (appendComment notes id e) id = some (lookupD notes id ++ [e]) := by
  unfold appendComment
  by_cases hc : containsKey notes id = true
  · rw [if_pos hc, lookup_updateKey_self]
    obtain ⟨l, hl⟩ := Option.isSome_iff_exists.1 hc
    rw [hl, lookupD, hl]
    rfl
  · rw [if_neg hc, lookup_append]
    have hnone : lookupNotes notes id = none := by
      cases h : lookupNotes notes id with
      | none => rfl
      | some l => exact absurd (by rw [containsKey, h]; rfl) hc
    rw [hnone, lookupD, hnone]
    simp [lookupNotes]

theorem lookup_appendComment_ne (notes : List (String × List Entry))
    (id id2 : String) (e : Entry) (h : id2 ≠ id) :
    lookupNotes (appendComment notes id e) id2 = lookupNotes notes id2 := by
  unfold appendComment
  by_cases hc : containsKey notes id = true
  · rw [if_pos hc, lookup_updateKey_ne _ _ _ _ h]
  · rw [if_neg hc, lookup_append]
    cases hl : lookupNotes notes id2 with
    | some l => rfl
    | none => simp [lookupNotes, Ne.symm h]

theorem keys_appendComment (notes : List (String × List Entry)) (id : String)
    (e : Entry) :
    (appendComment notes id e).map Prod.fst =
      if containsKey notes id then notes.map Prod.fst
      else notes.map Prod.fst ++ [id] := by
  unfold appendComment
  by_cases hc : containsKey notes id = true
  · rw [if_pos hc, if_pos hc, keys_updateKey]
  · rw [if_neg hc, if_neg hc]
    simp

theorem keysNodup_appendComment (notes : List (String × List Entry)) (id : String)
    (e : Entry) (h : (notes.map Prod.fst).Nodup) :
    ((appendComment notes id e).map Prod.fst).Nodup := by
  rw [keys_appendComment]
  by_cases hc : containsKey notes id = true
  · rwa [if_pos hc]
  · rw [if_neg hc]
    have : id ∉ notes.map Prod.fst := fun hm => hc ((containsKey_iff notes id).2 hm)
    simp [List.nodup_append, h, this]

theorem groupRows_append_single (rows : List Triple) (r : Triple) :
    groupRows (rows ++ [r]) = appendComment (groupRows rows) r.1 (r.2.1, r.2.2) := by
  unfold groupRows
  rw [List.foldl_append]
  rfl

theorem keys_groupRows_nodup (rows : List Triple) :
    ((groupRows rows).map Prod.fst).Nodup := by
  induction rows using List.reverseRecOn with
  | nil => simp [groupRows]
  | append_singleton rows r ih =>
    rw [groupRows_append_single]
    exact keysNodup_appendComment _ _ _ ih

theorem rowsFor_append_single (id : String) (rows : List Triple) (r : Triple) :
    rowsFor id (rows ++ [r]) =
      rowsFor id rows ++ (if r.1 = id then [(r.2.1, r.2.2)] else []) := by
  unfold rowsFor
  rw [List.filter_append, List.map_append]
  by_cases hr : r.1 = id
  · simp [hr]
  · simp [hr]

theorem lookup_groupRows (rows : List Triple) (id : String) :
    lookupNotes (groupRows rows) id =
      if rowsFor id rows = [] then none else some (rowsFor id rows) := by
  induction rows using List.reverseRecOn with
  | nil => simp [groupRows, lookupNotes, rowsFor]
  | append_singleton rows r ih =>
    rw [groupRows_append_single, rowsFor_append_single]
    by_cases hr : r.1 = id
    · rw [hr, lookup_appendComment_self, if_pos rfl]
      have hD : lookupD (groupRows rows) id = rowsFor id rows := by
        rw [lookupD, ih]
        by_cases h0 : rowsFor id rows = []
        · rw [if_pos h0, h0]; rfl
        · rw [if_neg h0]; rfl
      rw [hD]
      have : rowsFor id rows ++ [(r.2.1, r.2.2)] ≠ [] := by simp
      rw [if_neg this]
    · rw [lookup_appendComment_ne _ _ _ _ (fun h => hr h.symm), ih, if_neg hr,
        List.append_nil]

theorem mem_of_keys_nodup (notes : List (String × List Entry)) (id : String)
    (l : List Entry) (h : (notes.map Prod.fst).Nodup) :
    (id, l) ∈ notes ↔ lookupNotes notes id = some l := by
  induction notes with
  | nil => simp [lookupNotes]
  | cons p rest ih =>
    obtain ⟨k, m⟩ := p
    simp only [List.map_cons, List.nodup_cons] at h
    by_cases hk : k = id
    · subst hk
      have hlook : lookupNotes ((k, m) :: rest) k = some m := by
        simp [lookupNotes]
      rw [hlook]
      simp only [List.mem_cons, Option.some.injEq, Prod.mk.injEq]
      constructor
      · rintro (⟨-, e⟩ | hm)
        · exact e.symm
        · exact absurd (List.mem_map_of_mem Prod.fst hm) h.1
      · intro e
        exact Or.inl ⟨trivial, e.symm⟩
    · simp only [List.mem_cons, lookupNotes, if_neg hk, ih h.2, Prod.mk.injEq]
      constructor
      · rintro (⟨e, -⟩ | hm)
        · exact absurd e.symm hk
        · exact hm
      · exact Or.inr

theorem mem_groupRows (rows : List Triple) (id : String) (l : List Entry) :
    (id, l) ∈ groupRows rows ↔ rowsFor id rows ≠ [] ∧ l = rowsFor id rows := by
  rw [mem_of_keys_nodup _ _ _ (keys_groupRows_nodup rows), lookup_groupRows]
  by_cases h0 : rowsFor id rows = []
  · simp [h0]
  · simp [h0, eq_comm]

theorem lookup_eq_none_of_not_mem (notes : List (String × List Entry))
    (id : String) (h : id ∉ notes.map Prod.fst) : lookupNotes notes id = none :=
  (lookup_eq_none_iff notes id).2 h

theorem lookup_removeKey_self (notes : List (String × List Entry)) (id : String)
    (h : (notes.map Prod.fst).Nodup) :
    lookupNotes (removeKey notes id) id = none := by
  induction notes with
  | nil => simp [removeKey, lookupNotes]
  | cons p rest ih =>
    obtain ⟨k, l⟩ := p
    simp only [List.map_cons, List.nodup_cons] at h
    by_cases hk : k = id
    · rw [removeKey, if_pos hk]
      exact lookup_eq_none_of_not_mem rest id (hk ▸ h.1)
    · rw [removeKey, if_neg hk, lookupNotes, if_neg hk]
      exact ih h.2

theorem foldl_filter_cond {α β : Type _} (p : α → Bool) (g : β → α → β)
    (rows : List α) (init : β) :
    (rows.filter p).foldl g init =
      rows.foldl (fun d r => if p r then g d r else d) init := by
  induction rows generalizing init with
  | nil => rfl
  | cons r rows ih =>
    by_cases hr : p r = true
    · simp [List.filter_cons, hr, ih]
    · simp only [List.filter_cons, List.foldl_cons]
      rw [if_neg hr, Bool.not_eq_true] at *
      simp [hr, ih]

theorem foldl_append_if {α β : Type _} (c : α → Bool) (g : α → β)
    (ids : List α) (init : List β) :
    ids.foldl (fun d i => if c i then d ++ [g i] else d) init =
      init ++ (ids.filter c).map g := by
  induction ids generalizing init with
  | nil => simp
  | cons i ids ih =>
    by_cases hc : c i = true
    · simp [List.filter_cons, hc, ih]
    · simp only [List.foldl_cons, List.filter_cons]
      rw [if_neg hc]
      simp only [Bool.not_eq_true] at hc
      simp [hc, ih]

theorem mem_foldl_append_if {α β : Type _} (c : α → Prop) [DecidablePred c]
    (g : α → β) (ids : List α) (init : List β) (x : β) :
    x ∈ ids.foldl (fun d i => if c i then d ++ [g i] else d) init ↔
      x ∈ init ∨ ∃ i ∈ ids, c i ∧ x = g i := by
  induction ids generalizing init with
  | nil => simp
  | cons i ids ih =>
    simp only [List.foldl_cons]
    by_cases hc : c i
    · rw [if_pos hc, ih]
      simp only [List.mem_append, List.mem_cons, List.not_mem_nil, or_false]
      constructor
      · rintro ((h | h) | ⟨j, hj, hcj, hx⟩)
        · exact Or.inl h
        · exact Or.inr ⟨i, Or.inl rfl, hc, h⟩
        · exact Or.inr ⟨j, Or.inr hj, hcj, hx⟩
      · rintro (h | ⟨j, hj | hj, hcj, hx⟩)
        · exact Or.inl (Or.inl h)
        · exact Or.inl (Or.inr (hj ▸ hx))
        · exact Or.inr ⟨j, hj, hcj, hx⟩
    · rw [if_neg hc, ih]
      simp only [List.mem_cons]
      constructor
      · rintro (h | ⟨j, hj, hcj, hx⟩)
        · exact Or.inl h
        · exact Or.inr ⟨j, Or.inr hj, hcj, hx⟩
      · rintro (h | ⟨j, hj | hj, hcj, hx⟩)
        · exact Or.inl h
        · exact absurd (hj ▸ hcj) hc
        · exact Or.inr ⟨j, hj, hcj, hx⟩

theorem mem_filterComments (now : Int) (d : Option Int) (l : List Entry)
    (e : Entry) :
    e ∈ filterCommentsByTimeframe now d l ↔
      e ∈ l ∧ isWithinTimeframe now d e.1 = true := by
  cases d with
  | none => simp [filterCommentsByTimeframe, isWithinTimeframe]
  | some a => simp [filterCommentsByTimeframe, List.mem_filter]

theorem isWithin_mono (d1 d2 : Option Int) (now ts : Int) (h : deltaLE d1 d2)
    (hw : isWithinTimeframe now d1 ts = true) :
    isWithinTimeframe now d2 ts = true := by
  cases d2 with
  | none => rfl
  | some b =>
    cases d1 with
    | none => exact absurd h not_false
    | some a =>
      simp only [isWithinTimeframe, decide_eq_true_eq] at hw ⊢
      exact lt_of_lt_of_le hw h

theorem deltaLE_timeframes :
    deltaLE (getTimeframeDelta 1) (getTimeframeDelta 2) ∧
    deltaLE (getTimeframeDelta 2) (getTimeframeDelta 3) ∧
    deltaLE (getTimeframeDelta 3) (getTimeframeDelta 0) := by
  refine ⟨?_, ?_, ?_⟩ <;> simp [getTimeframeDelta, deltaLE]

/-- Text-query branch of `filter_notes`: the call succeeds and the result is
the time-window filtered search triples grouped by identifier. -/
theorem filterNotes_text_eq (st : AppState) (idFrag commentQuery : String)
    (tf : Nat) (now : Int) (hq : commentQuery ≠ "") :
    filterNotes st idFrag commentQuery tf now =
      some (groupRows ((st.si.search commentQuery
          (if idFrag ≠ "" then some idFrag else none)).filter
        (fun r => isWithinTimeframe now (getTimeframeDelta tf) r.2.1))) := by
  simp only [filterNotes]
  rw [if_pos hq, groupRows, foldl_filter_cond]

/-- The identifier loop of `filter_notes` succeeds exactly when every matched
identifier is a stored key (otherwise `self.notes[id]` raises `KeyError`). -/
theorem filterNotesIdLoop_isSome (notes : List (String × List Entry))
    (now : Int) (delta : Option Int) (ids : List String)
    (disp : List (String × List Entry)) :
    (filterNotesIdLoop notes now delta ids disp).isSome = true ↔
      ∀ id ∈ ids, (lookupNotes notes id).isSome = true := by
  induction ids generalizing disp with
  | nil => simp [filterNotesIdLoop]
  | cons id ids ih =>
    simp only [filterNotesIdLoop]
    split
    · rename_i heq
      constructor
      · intro h
        exact absurd h (by simp)
      · intro h
        have hm := h id (List.mem_cons_self id ids)
        rw [heq] at hm
        simp at hm
    · rename_i comments heq
      split
      all_goals
        rw [ih]
        constructor
        · intro h v hv
          rcases List.mem_cons.1 hv with e | e
          · subst e
            rw [heq]
            rfl
          · exact h v e
        · intro h v hv
          exact h v (List.mem_cons_of_mem id hv)

/-- On a successful run, the identifier loop returns the matched identifiers
with non-empty window-filtered stored comment lists, in match order. -/
theorem filterNotesIdLoop_eq (notes : List (String × List Entry)) (now : Int)
    (delta : Option Int) (ids : List String) (disp : List (String × List Entry))
    (h : ∀ id ∈ ids, (lookupNotes notes id).isSome = true) :
    filterNotesIdLoop notes now delta ids disp = some (disp ++
      (ids.filter (fun i =>
        decide (filterCommentsByTimeframe now delta (lookupD notes i) ≠ []))).map
        (fun i => (i, filterCommentsByTimeframe now delta (lookupD notes i)))) := by
  induction ids generalizing disp with
  | nil => simp [filterNotesIdLoop]
  | cons id ids ih =>
    have hid := h id (List.mem_cons_self id ids)
    have htail : ∀ v ∈ ids, (lookupNotes notes v).isSome = true :=
      fun v hv => h v (List.mem_cons_of_mem id hv)
    simp only [filterNotesIdLoop]
    split
    · rename_i heq
      rw [heq] at hid
      exact absurd hid (by simp)
    · rename_i comments heq
      have hD : lookupD notes id = comments := by
        rw [lookupD, heq]
        rfl
      rw [List.filter_cons]
      by_cases hrel : filterCommentsByTimeframe now delta comments ≠ []
      · have hc : decide (filterCommentsByTimeframe now delta (lookupD notes id) ≠ [])
            = true := by
          rw [hD]
          exact decide_eq_true hrel
        rw [if_pos hrel,
          ih (disp ++ [(id, filterCommentsByTimeframe now delta comments)]) htail, hc]
        simp [hD, List.append_assoc]
      · have hc : decide (filterCommentsByTimeframe now delta (lookupD notes id) ≠ [])
            = false := by
          rw [hD]
          exact decide_eq_false hrel
        rw [if_neg hrel, ih disp htail, hc]
        simp

/-- Identifier-fragment branch of `filter_notes`, on a successful call: the
result holds the `search_ids` matches whose window-filtered stored comment
list is non-empty. -/
theorem filterNotes_id_mem (st : AppState) (idFrag : String) (tf : Nat)
    (now : Int) (id : String) (l : List Entry) (hfrag : idFrag ≠ "")
    (res : List (String × List Entry))
    (hres : filterNotes st idFrag "" tf now = some res) :
    (id, l) ∈ res ↔
      id ∈ st.si.searchIds idFrag ∧
      l = filterCommentsByTimeframe now (getTimeframeDelta tf) (lookupD st.notes id) ∧
      l ≠ [] := by
  simp only [filterNotes] at hres
  rw [if_neg (by simp), if_pos hfrag] at hres
  have hall : ∀ i ∈ st.si.searchIds idFrag, (lookupNotes st.notes i).isSome = true := by
    rw [← filterNotesIdLoop_isSome st.notes now (getTimeframeDelta tf)
      (st.si.searchIds idFrag) []]
    rw [hres]
    rfl
  rw [filterNotesIdLoop_eq st.notes now (getTimeframeDelta tf)
    (st.si.searchIds idFrag) [] hall] at hres
  injection hres with hres
  subst hres
  simp only [List.nil_append, List.mem_map, List.mem_filter, decide_eq_true_eq,
    Prod.mk.injEq]
  constructor
  · rintro ⟨i, ⟨hi, hne⟩, rfl, rfl⟩
    exact ⟨hi, rfl, hne⟩
  · rintro ⟨hi, rfl, hne⟩
    exact ⟨id, ⟨hi, hne⟩, rfl, rfl⟩

/-- Show-all branch of `filter_notes`: the call succeeds with the stored
identifiers whose window-filtered comment list is non-empty. -/
theorem filterNotes_all_eq (st : AppState) (tf : Nat) (now : Int) :
    filterNotes st "" "" tf now =
      some (st.notes.foldl
        (fun disp p =>
          if filterCommentsByTimeframe now (getTimeframeDelta tf) p.2 ≠ []
          then disp ++ [(p.1, filterCommentsByTimeframe now (getTimeframeDelta tf) p.2)]
          else disp) []) := by
  simp only [filterNotes]
  rw [if_neg (by simp), if_neg (by simp)]

/-- Membership form of the show-all branch, on (its always successful)
result. -/
theorem filterNotes_all_mem (st : AppState) (tf : Nat) (now : Int)
    (id : String) (l : List Entry) (res : List (String × List Entry))
    (hres : filterNotes st "" "" tf now = some res) :
    (id, l) ∈ res ↔
      ∃ p ∈ st.notes,
        id = p.1 ∧
        l = filterCommentsByTimeframe now (getTimeframeDelta tf) p.2 ∧
        l ≠ [] := by
  rw [filterNotes_all_eq st tf now] at hres
  injection hres with hres
  subst hres
  rw [mem_foldl_append_if
    (fun p : String × List Entry =>
      filterCommentsByTimeframe now (getTimeframeDelta tf) p.2 ≠ [])
    (fun p : String × List Entry =>
      (p.1, filterCommentsByTimeframe now (getTimeframeDelta tf) p.2))
    st.notes [] (id, l)]
  simp only [List.not_mem_nil, false_or, Prod.mk.injEq]
  constructor
  · rintro ⟨p, hp, hne, rfl, rfl⟩
    exact ⟨p, hp, rfl, rfl, hne⟩
  · rintro ⟨p, hp, rfl, rfl, hne⟩
    exact ⟨p, hp, hne, rfl, rfl⟩

/-- Whether `filter_notes` succeeds does not depend on the time window: the
`KeyError` path is decided by `search_ids` and the stored keys alone. -/
theorem filterNotes_isSome_indep (st : AppState) (idFrag commentQuery : String)
    (now : Int) (tf1 tf2 : Nat) :
    (filterNotes st idFrag commentQuery tf1 now).isSome =
      (filterNotes st idFrag commentQuery tf2 now).isSome := by
  by_cases hq : commentQuery = ""
  · subst hq
    by_cases hfrag : idFrag = ""
    · subst hfrag
      rw [filterNotes_all_eq st tf1 now, filterNotes_all_eq st tf2 now]
      rfl
    · have e1 : filterNotes st idFrag "" tf1 now =
          filterNotesIdLoop st.notes now (getTimeframeDelta tf1)
            (st.si.searchIds idFrag) [] := by
        simp only [filterNotes]
        rw [if_neg (by simp), if_pos hfrag]
      have e2 : filterNotes st idFrag "" tf2 now =
          filterNotesIdLoop st.notes now (getTimeframeDelta tf2)
            (st.si.searchIds idFrag) [] := by
        simp only [filterNotes]
        rw [if_neg (by simp), if_pos hfrag]
      rw [e1, e2]
      have h1 := filterNotesIdLoop_isSome st.notes now (getTimeframeDelta tf1)
        (st.si.searchIds idFrag) []
      have h2 := filterNotesIdLoop_isSome st.notes now (getTimeframeDelta tf2)
        (st.si.searchIds idFrag) []
      by_cases hb : (filterNotesIdLoop st.notes now (getTimeframeDelta tf1)
          (st.si.searchIds idFrag) []).isSome = true
      · rw [hb, h2.2 (h1.1 hb)]
      · have hb2 : (filterNotesIdLoop st.notes now (getTimeframeDelta tf2)
            (st.si.searchIds idFrag) []).isSome = false := by
          cases hv : (filterNotesIdLoop st.notes now (getTimeframeDelta tf2)
              (st.si.searchIds idFrag) []).isSome
          · rfl
          · exact absurd (h1.2 (h2.1 hv)) hb
        rw [Bool.not_eq_true] at hb
        rw [hb, hb2]
  · rw [filterNotes_text_eq st idFrag commentQuery tf1 now hq,
      filterNotes_text_eq st idFrag commentQuery tf2 now hq]
    rfl

theorem mem_rowsFor (id : String) (rows : List Triple) (e : Entry) :
    e ∈ rowsFor id rows ↔ ∃ r ∈ rows, r.1 = id ∧ e = (r.2.1, r.2.2) := by
  simp only [rowsFor, List.mem_map, List.mem_filter, decide_eq_true_eq]
  constructor
  · rintro ⟨r, ⟨hr, hid⟩, he⟩
    exact ⟨r, hr, hid, he.symm⟩
  · rintro ⟨r, hr, hid, he⟩
    exact ⟨r, ⟨hr, hid⟩, he.symm⟩

/-- Widening the time window can only grow a successful `filter_notes` view:
every identifier of the narrower view occurs in the wider one, with a comment
list containing the narrower one's comments. -/
theorem filterNotes_mono_delta (st : AppState) (idFrag commentQuery : String)
    (now : Int) (tf1 tf2 : Nat)
    (h : deltaLE (getTimeframeDelta tf1) (getTimeframeDelta tf2))
    (res1 res2 : List (String × List Entry))
    (h1 : filterNotes st idFrag commentQuery tf1 now = some res1)
    (h2 : filterNotes st idFrag commentQuery tf2 now = some res2) :
    viewLE res1 res2 := by
  intro id l hmem
  by_cases hq : commentQuery = ""
  · subst hq
    by_cases hfrag : idFrag = ""
    · subst hfrag
      obtain ⟨p, hp, hid, hl, hne⟩ := (filterNotes_all_mem st tf1 now id l res1 h1).1 hmem
      have hsub : ∀ e ∈ l, e ∈ filterCommentsByTimeframe now (getTimeframeDelta tf2) p.2 := by
        intro e he
        rw [hl, mem_filterComments] at he
        exact (mem_filterComments now _ p.2 e).2 ⟨he.1, isWithin_mono _ _ now e.1 h he.2⟩
      obtain ⟨e, he⟩ := List.exists_mem_of_ne_nil l hne
      refine ⟨filterCommentsByTimeframe now (getTimeframeDelta tf2) p.2,
        (filterNotes_all_mem st tf2 now id _ res2 h2).2
          ⟨p, hp, hid, rfl, List.ne_nil_of_mem (hsub e he)⟩, hsub⟩
    · obtain ⟨hid, hl, hne⟩ :=
        (filterNotes_id_mem st idFrag tf1 now id l hfrag res1 h1).1 hmem
      have hsub : ∀ e ∈ l,
          e ∈ filterCommentsByTimeframe now (getTimeframeDelta tf2) (lookupD st.notes id) := by
        intro e he
        rw [hl, mem_filterComments] at he
        exact (mem_filterComments now _ _ e).2 ⟨he.1, isWithin_mono _ _ now e.1 h he.2⟩
      obtain ⟨e, he⟩ := List.exists_mem_of_ne_nil l hne
      refine ⟨filterCommentsByTimeframe now (getTimeframeDelta tf2) (lookupD st.notes id),
        (filterNotes_id_mem st idFrag tf2 now id _ hfrag res2 h2).2
          ⟨hid, rfl, List.ne_nil_of_mem (hsub e he)⟩, hsub⟩
  · rw [filterNotes_text_eq st idFrag commentQuery tf1 now hq] at h1
    rw [filterNotes_text_eq st idFrag commentQuery tf2 now hq] at h2
    injection h1 with h1
    injection h2 with h2
    subst h1
    subst h2
    obtain ⟨hne, hl⟩ := (mem_groupRows _ id l).1 hmem
    have hsub : ∀ e ∈ l,
        e ∈ rowsFor id ((st.si.search commentQuery
            (if idFrag ≠ "" then some idFrag else none)).filter
          (fun r => isWithinTimeframe now (getTimeframeDelta tf2) r.2.1)) := by
      intro e he
      rw [hl, mem_rowsFor] at he
      obtain ⟨r, hr, hrid, hre⟩ := he
      rw [List.mem_filter] at hr
      exact (mem_rowsFor id _ e).2
        ⟨r, List.mem_filter.2 ⟨hr.1, isWithin_mono _ _ now r.2.1 h hr.2⟩, hrid, hre⟩
    have hlne : l ≠ [] := by rw [hl]; exact hne
    obtain ⟨e, he⟩ := List.exists_mem_of_ne_nil l hlne
    exact ⟨_, (mem_groupRows _ id _).2 ⟨List.ne_nil_of_mem (hsub e he), rfl⟩, hsub⟩

/-- C8: `search` returns the empty set when the query has no tokens, and when
some query token has no posting set in the index it returns the empty set
(totally, raising nothing) as well. -/
theorem C8_search_failure_semantics (si : SearchIndex) (query : String)
    (idFilter : Option String) :
    (tokenizeList query = [] → si.search query idFilter = []) ∧
    (∀ w ∈ tokenizeList query, si.index w = [] → si.search query idFilter = []) := by
  constructor
  · intro h
    refine List.eq_nil_iff_forall_not_mem.2 fun t ht => ?_
    exact ((search_mem si query idFilter t).1 ht).1 h
  · intro w hw hempty
    refine List.eq_nil_iff_forall_not_mem.2 fun t ht => ?_
    have hmem := ((search_mem si query idFilter t).1 ht).2.1 w hw
    rw [hempty] at hmem
    exact List.not_mem_nil t hmem

/-- C8 witness: at concrete inputs, the empty query and a query with an
unindexed token both return the empty set. -/
theorem C8_search_failure_semantics_witness :
    SearchIndex.empty.search "" none = [] ∧
    (SearchIndex.empty.addEntry "A1" 0 "pump").search "valve pump" none = [] :=
  ⟨(C8_search_failure_semantics SearchIndex.empty "" none).1 (by decide),
   (C8_search_failure_semantics (SearchIndex.empty.addEntry "A1" 0 "pump")
      "valve pump" none).2 "valve" (by decide) (by decide)⟩

/-- C9: for every query with at least one token, the optimized search (sort
tokens by posting-set size, intersect in ascending order, short-circuit on an
empty intermediate result) returns the same set of triples as the naive
Boolean-AND intersection of all query tokens' posting sets. -/
theorem C9_search_eq_naive (si : SearchIndex) (query : String)
    (h : tokenizeList query ≠ []) (t : Triple) :
    t ∈ si.search query none ↔ t ∈ naiveIntersection si query := by
  rw [search_mem, naiveIntersection_mem]
  simp [idMatches, h]

/-- C9 witness: the equivalence applied to a two-token query over a two-entry
index. -/
theorem C9_search_eq_naive_witness :
    ("A1", 0, "fix pump") ∈ exIndex2.search "pump fix" none ↔
      ("A1", 0, "fix pump") ∈ naiveIntersection exIndex2 "pump fix" :=
  C9_search_eq_naive exIndex2 "pump fix" (by decide) ("A1", 0, "fix pump")

/-- C10: a comment whose timestamp lies strictly in the future of the current
instant passes the time-window filter for every window, so it is kept by
`_filter_comments_by_timeframe` for every window whenever it is stored. -/
theorem C10_future_within_all_windows (now ts : Int) (h : now < ts) :
    (∀ tf : Nat, isWithinTimeframe now (getTimeframeDelta tf) ts = true) ∧
    (∀ (tf : Nat) (l : List Entry) (text : String), (ts, text) ∈ l →
      (ts, text) ∈ filterCommentsByTimeframe now (getTimeframeDelta tf) l) := by
  have key : ∀ tf : Nat, isWithinTimeframe now (getTimeframeDelta tf) ts = true := by
    intro tf
    have hcases : getTimeframeDelta tf = none ∨
        ∃ k : Int, getTimeframeDelta tf = some k ∧ 0 < k := by
      unfold getTimeframeDelta
      split_ifs
      · exact Or.inr ⟨86400, rfl, by norm_num⟩
      · exact Or.inr ⟨604800, rfl, by norm_num⟩
      · exact Or.inr ⟨2592000, rfl, by norm_num⟩
      · exact Or.inl rfl
    rcases hcases with hd | ⟨k, hd, hk⟩
    · rw [hd]; rfl
    · rw [hd]
      simp only [isWithinTimeframe, decide_eq_true_eq]
      omega
  exact ⟨key, fun tf l text hl =>
    (mem_filterComments now _ l (ts, text)).2 ⟨hl, key tf⟩⟩

/-- C10 witness: a comment five seconds in the future passes the Day window. -/
theorem C10_future_within_all_windows_witness :
    isWithinTimeframe 0 (getTimeframeDelta 1) 5 = true :=
  (C10_future_within_all_windows 0 5 (by decide)).1 1

/-- C7: for a fixed store, fixed fragment and text query, and a fixed current
instant, whether `filter_notes` succeeds is window-independent, and the
successful view for Day is contained in Week's, Week's in Month's, and
Month's in All's — on identifiers and, per identifier, on the comments (the
window indices of the segmented control are All 0, Day 1, Week 2, Month 3). -/
theorem C7_window_monotonic (st : AppState) (idFrag commentQuery : String)
    (now : Int) :
    ((filterNotes st idFrag commentQuery 1 now).isSome =
        (filterNotes st idFrag commentQuery 2 now).isSome ∧
      ∀ res1 res2, filterNotes st idFrag commentQuery 1 now = some res1 →
        filterNotes st idFrag commentQuery 2 now = some res2 → viewLE res1 res2) ∧
    ((filterNotes st idFrag commentQuery 2 now).isSome =
        (filterNotes st idFrag commentQuery 3 now).isSome ∧
      ∀ res1 res2, filterNotes st idFrag commentQuery 2 now = some res1 →
        filterNotes st idFrag commentQuery 3 now = some res2 → viewLE res1 res2) ∧
    ((filterNotes st idFrag commentQuery 3 now).isSome =
        (filterNotes st idFrag commentQuery 0 now).isSome ∧
      ∀ res1 res2, filterNotes st idFrag commentQuery 3 now = some res1 →
        filterNotes st idFrag commentQuery 0 now = some res2 → viewLE res1 res2) :=
  ⟨⟨filterNotes_isSome_indep st idFrag commentQuery now 1 2,
    fun res1 res2 h1 h2 => filterNotes_mono_delta st idFrag commentQuery now 1 2
      deltaLE_timeframes.1 res1 res2 h1 h2⟩,
   ⟨filterNotes_isSome_indep st idFrag commentQuery now 2 3,
    fun res1 res2 h1 h2 => filterNotes_mono_delta st idFrag commentQuery now 2 3
      deltaLE_timeframes.2.1 res1 res2 h1 h2⟩,
   ⟨filterNotes_isSome_indep st idFrag commentQuery now 3 0,
    fun res1 res2 h1 h2 => filterNotes_mono_delta st idFrag commentQuery now 3 0
      deltaLE_timeframes.2.2 res1 res2 h1 h2⟩⟩

/-- C7 witness: the Day-to-Week containment at a concrete state and instant. -/
theorem C7_window_monotonic_witness :
    viewLE [("A1", [((0 : Int), "a"), (100, "b")])]
      [("A1", [((0 : Int), "a"), (100, "b")])] :=
  (C7_window_monotonic exStateAB "" "" 150).1.2
    [("A1", [((0 : Int), "a"), (100, "b")])]
    [("A1", [((0 : Int), "a"), (100, "b")])] (by decide) (by decide)

/-- C2 counterexample: the store holds `A1` with one comment, whose lowercase
form starts with the lowercase fragment `"A"`, yet the view for fragment
`"A"` (empty text query, All window) succeeds and is empty — `filter_notes`
does not do prefix matching on identifiers. -/
theorem C2_counterexample :
    lowerStartsWith "A" "A1" = true ∧
    lookupNotes exStateA.notes "A1" = some [(0, "x")] ∧
    filterNotes exStateA "A" "" 0 5 = some [] := by decide

/-- C2 (amended): with empty text query, non-empty fragment and the All
window, a successful `filter_notes` call returns exactly the identifiers
whose posting sets in the identifier-name index contain every word token of
the fragment (an exact whole-token intersection, `search_ids`, not a prefix
match), each paired with all of that identifier's stored comments, omitted
when that list is empty; and when some `search_ids` match is not a stored
identifier — reachable, since the name index is never cleared — the call
raises `KeyError` (modelled `none`) instead of returning a view. -/
theorem C2_amended_token_match (st : AppState) (idFrag : String) (now : Int)
    (id : String) (l : List Entry) (hfrag : idFrag ≠ "") :
    (∀ res, filterNotes st idFrag "" 0 now = some res →
      ((id, l) ∈ res ↔
        (tokenizeList idFrag ≠ [] ∧ ∀ w ∈ tokenizeList idFrag, id ∈ st.si.idIndex w) ∧
        l = lookupD st.notes id ∧ l ≠ [])) ∧
    (id ∈ st.si.searchIds idFrag → lookupNotes st.notes id = none →
      filterNotes st idFrag "" 0 now = none) := by
  constructor
  · intro res hres
    rw [filterNotes_id_mem st idFrag 0 now id l hfrag res hres, ← searchIds_mem]
    have hAll : getTimeframeDelta 0 = none := rfl
    rw [hAll]
    rfl
  · intro hid hnone
    simp only [filterNotes]
    rw [if_neg (by simp), if_pos hfrag]
    cases hcase : filterNotesIdLoop st.notes now (getTimeframeDelta 0)
        (st.si.searchIds idFrag) [] with
    | none => rfl
    | some r =>
      have hsome : (filterNotesIdLoop st.notes now (getTimeframeDelta 0)
          (st.si.searchIds idFrag) []).isSome = true := by
        rw [hcase]
        rfl
      have hall := (filterNotesIdLoop_isSome st.notes now (getTimeframeDelta 0)
        (st.si.searchIds idFrag) []).1 hsome id hid
      rw [hnone] at hall
      simp at hall

/-- C2 witness: fragment `"a1"` token-matches the stored identifier `A1`, so
the pair of `A1` with its full comment list is in the successful view; and
after deleting identifier `A1`, the stale name index still matches `"a1"` and
the same call raises `KeyError` (modelled `none`). -/
theorem C2_amended_token_match_witness :
    (filterNotes exStateA "a1" "" 0 5 = some [("A1", [((0 : Int), "x")])] ∧
      ("A1", [((0 : Int), "x")]) ∈ [("A1", [((0 : Int), "x")])]) ∧
    filterNotes (opDeleteIdentifier exStateA "A1") "a1" "" 0 5 = none :=
  ⟨⟨by decide,
    ((C2_amended_token_match exStateA "a1" 5 "A1" [((0 : Int), "x")] (by decide)).1
      [("A1", [((0 : Int), "x")])] (by decide)).2 (by decide)⟩,
   (C2_amended_token_match (opDeleteIdentifier exStateA "A1") "a1" 5 "A1" []
      (by decide)).2 (by decide) (by decide)⟩

/-- C3 counterexample: with `A1` storing `(0, "a")` then `(100, "b")`, the
show-all view returns the comments in stored order, oldest first, so the
returned list is not sorted by timestamp descending. -/
theorem C3_counterexample :
    filterNotes exStateAB "" "" 0 200 = some [("A1", [(0, "a"), (100, "b")])] ∧
    tsSortedDesc [((0 : Int), "a"), (100, "b")] = false := by decide

/-- C3 (amended): with empty text query, each identifier's comment list in a
successful `filter_notes` view is the stored list filtered by the time
window, in stored insertion order — no sort by timestamp descending is
applied (the source sorts only in the separate `refresh_comments_list`
path). -/
theorem C3_amended_stored_order (st : AppState) (idFrag : String) (tf : Nat)
    (now : Int) (id : String) (l : List Entry)
    (res : List (String × List Entry))
    (hkeys : (st.notes.map Prod.fst).Nodup)
    (hres : filterNotes st idFrag "" tf now = some res)
    (h : (id, l) ∈ res) :
    l = filterCommentsByTimeframe now (getTimeframeDelta tf) (lookupD st.notes id) := by
  by_cases hfrag : idFrag = ""
  · subst hfrag
    obtain ⟨p, hp, hid, hl, -⟩ := (filterNotes_all_mem st tf now id l res hres).1 h
    have hlook : lookupNotes st.notes p.1 = some p.2 :=
      (mem_of_keys_nodup st.notes p.1 p.2 hkeys).1 (by rwa [Prod.mk.eta])
    rw [hl, hid, lookupD, hlook, Option.getD_some]
  · exact ((filterNotes_id_mem st idFrag tf now id l hfrag res hres).1 h).2.1

/-- C3 witness: the amended statement evaluated on the two-comment store. -/
theorem C3_amended_stored_order_witness :
    [((0 : Int), "a"), (100, "b")] =
      filterCommentsByTimeframe 200 (getTimeframeDelta 0) (lookupD exStateAB.notes "A1") :=
  C3_amended_stored_order exStateAB "" 0 200 "A1" [(0, "a"), (100, "b")]
    [("A1", [(0, "a"), (100, "b")])] (by decide) (by decide) (by decide)

/-- C4 counterexample: the fragment `"a1"` equals the stored identifier `A1`
case-insensitively, `A1`'s only comment falls outside the Day window, and the
view succeeds and is empty — the identifier is dropped, not retained with an
empty list. -/
theorem C4_counterexample :
    lowerStr "a1" = lowerStr "A1" ∧
    lookupNotes exStateA.notes "A1" = some [(0, "x")] ∧
    filterNotes exStateA "a1" "" 1 1000000 = some [] := by decide

/-- C4 (amended): an identifier whose window-filtered comment list is empty is
always dropped from a successful `filter_notes` view — there is no
exact-match exception; no pair of any returned view carries an empty comment
list. -/
theorem C4_amended_empty_dropped (st : AppState) (idFrag commentQuery : String)
    (tf : Nat) (now : Int) (id : String) (l : List Entry)
    (res : List (String × List Entry))
    (hres : filterNotes st idFrag commentQuery tf now = some res)
    (h : (id, l) ∈ res) : l ≠ [] := by
  by_cases hq : commentQuery = ""
  · subst hq
    by_cases hfrag : idFrag = ""
    · subst hfrag
      obtain ⟨p, hp, -, -, hne⟩ := (filterNotes_all_mem st tf now id l res hres).1 h
      exact hne
    · exact ((filterNotes_id_mem st idFrag tf now id l hfrag res hres).1 h).2.2
  · rw [filterNotes_text_eq st idFrag commentQuery tf now hq] at hres
    injection hres with hres
    subst hres
    obtain ⟨hne, hl⟩ := (mem_groupRows _ id l).1 h
    rw [hl]
    exact hne

/-- C4 witness: the non-emptiness guarantee at a concrete view pair. -/
theorem C4_amended_empty_dropped_witness : [((0 : Int), "x")] ≠ [] :=
  C4_amended_empty_dropped exStateA "" "" 0 5 "A1" [(0, "x")]
    [("A1", [(0, "x")])] (by decide) (by decide)

/-- C5: for an existing identifier and a valid comment index,
`update_comment` with `preserve_timestamp = true` replaces the text and keeps
the original timestamp, and with `preserve_timestamp = false` replaces the
text and stamps the comment with the current time. -/
theorem C5_update_comment_timestamp (notes : List (String × List Entry))
    (identifier newText : String) (i : Nat) (now : Int) (l : List Entry)
    (hl : lookupNotes notes identifier = some l) (hi : i < l.length) :
    lookupNotes (update_comment notes identifier i newText true now) identifier =
      some (l.set i ((l.get ⟨i, hi⟩).1, newText)) ∧
    lookupNotes (update_comment notes identifier i newText false now) identifier =
      some (l.set i (now, newText)) := by
  have hD : lookupD notes identifier = l := by
    rw [lookupD, hl, Option.getD_some]
  have hget : l.getD i ((0 : Int), "") = l.get ⟨i, hi⟩ := by
    rw [List.getD_eq_getElem l _ hi, List.get_eq_getElem]
  constructor
  · have hred : update_comment notes identifier i newText true now =
        updateKey notes identifier
          (fun l2 => l2.set i (((lookupD notes identifier).getD i (0, "")).1, newText)) := rfl
    rw [hred, lookup_updateKey_self, hl, Option.map_some', hD, hget]
  · have hred : update_comment notes identifier i newText false now =
        updateKey notes identifier (fun l2 => l2.set i (now, newText)) := rfl
    rw [hred, lookup_updateKey_self, hl, Option.map_some']

/-- C5 witness: replacing `(5, "old")` keeps timestamp `5` when preserving
and stamps `99` when not. -/
theorem C5_update_comment_timestamp_witness :
    lookupNotes (update_comment [("A1", [(5, "old")])] "A1" 0 "new" true 99) "A1" =
      some [(5, "new")] ∧
    lookupNotes (update_comment [("A1", [(5, "old")])] "A1" 0 "new" false 99) "A1" =
      some [(99, "new")] := by
  have h := C5_update_comment_timestamp [("A1", [(5, "old")])] "A1" "new" 0 99
    [(5, "old")] (by decide) (by decide)
  exact ⟨h.1, h.2⟩

theorem noEmptyLists_groupRows (rows : List Triple) :
    noEmptyLists (groupRows rows) := by
  rintro ⟨a, b⟩ hp
  obtain ⟨hne, hl⟩ := (mem_groupRows rows a b).1 hp
  show b ≠ []
  rw [hl]
  exact hne

/-- C6: after each store operation followed by its re-indexing, no identifier
key carries an empty comment list; deleting the only comment of an identifier
removes that identifier from `list_identifiers` entirely. -/
theorem C6_store_invariant (st : AppState) (identifier text : String) (i : Nat)
    (now ts : Int) (pres : Bool) :
    noEmptyLists (opAddComment st identifier text now).notes ∧
    noEmptyLists (opUpdateComment st identifier i text pres now).notes ∧
    noEmptyLists (opDeleteComment st identifier i).notes ∧
    noEmptyLists (opDeleteIdentifier st identifier).notes ∧
    ((st.notes.map Prod.fst).Nodup →
      lookupNotes st.notes identifier = some [(ts, text)] →
      identifier ∉ list_identifiers (opDeleteComment st identifier 0).notes) := by
  refine ⟨noEmptyLists_groupRows _, noEmptyLists_groupRows _,
    noEmptyLists_groupRows _, noEmptyLists_groupRows _, ?_⟩
  intro hnodup hone hmem
  have h1 : lookupNotes (updateKey st.notes identifier (fun l => l.eraseIdx 0))
      identifier = some [] := by
    rw [lookup_updateKey_self, hone]
    rfl
  have hD1 : lookupD (updateKey st.notes identifier (fun l => l.eraseIdx 0))
      identifier = [] := by
    rw [lookupD, h1]
    rfl
  have hdel : deleteCommentNotes st.notes identifier 0 =
      removeKey (updateKey st.notes identifier (fun l => l.eraseIdx 0)) identifier := by
    simp only [deleteCommentNotes]
    rw [if_pos hD1]
  have hnodup1 :
      ((updateKey st.notes identifier (fun l => l.eraseIdx 0)).map Prod.fst).Nodup := by
    rw [keys_updateKey]
    exact hnodup
  have h2 : lookupNotes (removeKey
      (updateKey st.notes identifier (fun l => l.eraseIdx 0)) identifier) identifier
      = none := lookup_removeKey_self _ _ hnodup1
  have hD2 : lookupD (deleteCommentNotes st.notes identifier 0) identifier = [] := by
    rw [hdel, lookupD, h2]
    rfl
  have hfinal : (opDeleteComment st identifier 0).notes =
      groupRows (st.db.filter (fun r => r.1 ≠ identifier)) := by
    show groupRows (st.db.filter (fun r => r.1 ≠ identifier) ++
        (lookupD (deleteCommentNotes st.notes identifier 0) identifier).map
          (fun e => (identifier, e.1, e.2))) = _
    rw [hD2]
    simp
  rw [list_identifiers, mem_sortLe, hfinal] at hmem
  have hrows : rowsFor identifier (st.db.filter (fun r => r.1 ≠ identifier)) = [] := by
    refine List.eq_nil_iff_forall_not_mem.2 fun e he => ?_
    obtain ⟨r, hr, hrid, -⟩ := (mem_rowsFor _ _ e).1 he
    rw [List.mem_filter] at hr
    exact absurd hrid (by simpa using hr.2)
  have hnone : lookupNotes (groupRows (st.db.filter (fun r => r.1 ≠ identifier)))
      identifier = none := by
    rw [lookup_groupRows, if_pos hrows]
  exact absurd hmem ((lookup_eq_none_iff _ _).1 hnone)

/-- C6 witness: deleting the only comment of `A1` removes `A1` from the
identifier listing. -/
theorem C6_store_invariant_witness :
    "A1" ∉ list_identifiers (opDeleteComment exStateA "A1" 0).notes :=
  (C6_store_invariant exStateA "A1" "x" 0 0 0 true).2.2.2.2 (by decide) (by decide)

/-- C1 (refuted by the code): after adding the comment `(0, "pump")` under
`A1` and then deleting it, each operation followed by its re-indexing step,
the Note Store is empty yet `search("pump")` still returns the deleted
triple — `load_notes` re-adds rows into a search index that is never cleared,
so stale postings survive deletes (and, identically, edits). -/
theorem C1_stale_postings_after_delete :
    exStatePump.notes = [] ∧
    exStatePump.si.search "pump" none = [("A1", 0, "pump")] := by decide

end Ants
